import Mathlib

/-!
Shallow embedding of `rqalpha/model/account/stock_account.py` (class
`StockAccount`): the account ledger state machine that consumes
trade/order/calendar events and maintains cash, frozen cash, positions,
the trade-dedup set and the pending-dividend table.

Money and prices are modelled as exact rationals (ℚ); trade execution
ids and calendar dates as naturals; instrument symbols as strings.
Python dicts (the position store and the pending-dividend table) are
modelled as insertion-ordered association lists.
-/

/-- `rqalpha.const.SIDE` (the two values used by this module). -/
inductive SIDE where
  | BUY
  | SELL
deriving DecidableEq, Repr

/-- A per-symbol position record as seen through the ledger's interface:
`order_book_id`, `quantity`, `is_de_listed()`, `market_value`, plus opaque
counters standing for the position's own bookkeeping that the delegated
calls advance (the position internals are external to this module). -/
structure Position where
  order_book_id : String
  quantity : ℚ
  de_listed : Bool
  market_value : ℚ
  pending_new_count : ℕ
  cancel_count : ℕ
  after_trading_count : ℕ
  settled_count : ℕ
deriving DecidableEq, Repr

/-- `position.is_de_listed()`. -/
def Position.is_de_listed (p : Position) : Bool :=
  p.de_listed

/-- A trade record, with the fields of the originating order the code
reads (`trade.order.order_book_id`, `trade.order._frozen_price`)
flattened in. -/
structure Trade where
  exec_id : ℕ
  order_book_id : String
  side : SIDE
  last_quantity : ℚ
  last_price : ℚ
  transaction_cost : ℚ
  frozen_price : ℚ
deriving DecidableEq, Repr

/-- An order record with the fields this module reads:
`order_book_id`, `side`, `quantity`, `unfilled_quantity`,
`_frozen_price`, `_is_final()`. -/
structure Order where
  order_book_id : String
  side : SIDE
  quantity : ℚ
  unfilled_quantity : ℚ
  frozen_price : ℚ
  is_final : Bool
deriving DecidableEq, Repr

/-- A pending-dividend record: the value stored in
`self._dividend_receivable[order_book_id]`. -/
structure DividendRecord where
  quantity : ℚ
  dividend_per_share : ℚ
  payable_date : ℕ
deriving DecidableEq, Repr

/-- The record returned by `data_proxy.get_dividend_by_book_date`. -/
structure DividendInfo where
  dividend_cash_before_tax : ℚ
  round_lot : ℚ
  payable_date : ℕ
deriving DecidableEq, Repr

/-- The record returned by `data_proxy.get_split_by_ex_date`. -/
structure SplitInfo where
  split_coefficient_from : ℚ
  split_coefficient_to : ℚ
deriving DecidableEq, Repr

/-- The external collaborators reached through `Environment.get_instance()`:
current trading date, configuration flags, and the reference-data provider. -/
structure Env where
  trading_date : ℕ
  handle_split : Bool
  cash_return_by_stock_delisted : Bool
  get_dividend_by_book_date : String → ℕ → Option DividendInfo
  get_split_by_ex_date : String → ℕ → Option SplitInfo

/-- The ledger state of a `StockAccount`: `_total_cash`, `_frozen_cash`,
`_positions` (dict symbol → position, modelled as an insertion-ordered
list of positions keyed by their `order_book_id`), `_backward_trade_set`,
and `_dividend_receivable` (dict symbol → record). -/
structure StockAccount where
  total_cash : ℚ
  frozen_cash : ℚ
  positions : List Position
  backward_trade_set : Finset ℕ
  dividend_receivable : List (String × DividendRecord)
deriving DecidableEq

/-- A freshly created position for a symbol (created lazily by
`get_or_create`): zero quantity, no bookkeeping yet. -/
def Position.new (obid : String) : Position :=
  { order_book_id := obid
    quantity := 0
    de_listed := false
    market_value := 0
    pending_new_count := 0
    cancel_count := 0
    after_trading_count := 0
    settled_count := 0 }

/-- `self._positions.get_or_create(order_book_id)`: ensure a position for
the symbol exists, creating an empty one at the end (dict insertion
order) when absent. -/
def get_or_create (ps : List Position) (obid : String) : List Position :=
  if ps.any (fun p => p.order_book_id = obid) then ps
  else ps ++ [Position.new obid]

/-- In-place mutation of the position stored under a symbol (the Python
code mutates the handle returned by `get_or_create`). -/
def update_at (ps : List Position) (obid : String) (f : Position → Position) :
    List Position :=
  ps.map (fun p => if p.order_book_id = obid then f p else p)

/-- `self._positions.pop(order_book_id, None)`: remove the entry for a
symbol, a no-op when absent. -/
def pop_key (ps : List Position) (obid : String) : List Position :=
  ps.filter (fun p => p.order_book_id ≠ obid)

/-- Dict read of the pending-dividend table. -/
def table_lookup (tbl : List (String × DividendRecord)) (k : String) :
    Option DividendRecord :=
  (tbl.find? (fun kv => kv.1 = k)).map Prod.snd

/-- `self._dividend_receivable[order_book_id] = {...}`: insert or
overwrite the record for a symbol. -/
def table_set (tbl : List (String × DividendRecord)) (k : String)
    (r : DividendRecord) : List (String × DividendRecord) :=
  if tbl.any (fun kv => kv.1 = k) then
    tbl.map (fun kv => if kv.1 = k then (k, r) else kv)
  else tbl ++ [(k, r)]

/-- Modelled from the spec: the position delegate `apply_trade_` lives in
the external position record, not in this module. Spec §4.1/§9: it
increases holdings by the traded quantity on a buy and reduces them on a
sell. -/
def Position.apply_trade_ (p : Position) (t : Trade) : Position :=
  if t.side = SIDE.BUY then { p with quantity := p.quantity + t.last_quantity }
  else { p with quantity := p.quantity - t.last_quantity }

/-- Modelled from the spec: the position delegate `on_order_pending_new_`
(the position's own open-order bookkeeping, opaque to the ledger). -/
def Position.on_order_pending_new_ (p : Position) : Position :=
  { p with pending_new_count := p.pending_new_count + 1 }

/-- Modelled from the spec: the position delegate `on_order_cancel_`
(open-order bookkeeping, opaque to the ledger). -/
def Position.on_order_cancel_ (p : Position) : Position :=
  { p with cancel_count := p.cancel_count + 1 }

/-- Modelled from the spec: the position delegate `after_trading_`
(intraday finalization, opaque to the ledger). -/
def Position.after_trading_ (p : Position) : Position :=
  { p with after_trading_count := p.after_trading_count + 1 }

/-- Modelled from the spec: the position delegate `apply_settlement`
(§4.3: roll cost basis / day boundary forward); it does not change the
held quantity. -/
def Position.apply_settlement (p : Position) : Position :=
  { p with settled_count := p.settled_count + 1 }

/-- Modelled from the spec: the position delegate `split_(coeff)`
(§8: quantity is scaled by the split coefficient). -/
def Position.split_ (p : Position) (coeff : ℚ) : Position :=
  { p with quantity := p.quantity * coeff }

/-- `StockAccount._apply_trade`: dedup-guarded application of one trade
to cash, frozen cash, the position store and the dedup set. -/
def apply_trade (st : StockAccount) (t : Trade) : StockAccount :=
  if t.exec_id ∈ st.backward_trade_set then st
  else
    let ps := get_or_create st.positions t.order_book_id
    let cash1 := st.total_cash - t.transaction_cost
    if t.side = SIDE.BUY then
      { st with
        total_cash := cash1 - t.last_quantity * t.last_price
        frozen_cash := st.frozen_cash - t.frozen_price * t.last_quantity
        positions := update_at ps t.order_book_id (fun p => p.apply_trade_ t)
        backward_trade_set := insert t.exec_id st.backward_trade_set }
    else
      { st with
        total_cash := cash1 + t.last_price * t.last_quantity
        positions := ps
        backward_trade_set := insert t.exec_id st.backward_trade_set }

/-- `StockAccount.fast_forward(orders, trades)`: replay trades through the
dedup-guarded path, then recompute `_frozen_cash` from scratch over the
non-final orders (note: with no buy-side filter). -/
def fast_forward (st : StockAccount) (orders : List Order)
    (trades : List Trade) : StockAccount :=
  let st1 := trades.foldl
    (fun s t => if t.exec_id ∈ s.backward_trade_set then s else apply_trade s t)
    st
  { st1 with
    frozen_cash := orders.foldl
      (fun fc o => if o.is_final then fc
                   else fc + o.frozen_price * o.unfilled_quantity) 0 }

/-- `StockAccount._on_order_pending_new`. -/
def on_order_pending_new (st : StockAccount) (o : Order) : StockAccount :=
  let ps := update_at (get_or_create st.positions o.order_book_id)
    o.order_book_id Position.on_order_pending_new_
  if o.side = SIDE.BUY then
    { st with
      positions := ps
      frozen_cash := st.frozen_cash + o.frozen_price * o.quantity }
  else { st with positions := ps }

/-- `StockAccount._on_order_unsolicited_update` (also bound to creation
reject and cancellation pass). -/
def on_order_unsolicited_update (st : StockAccount) (o : Order) : StockAccount :=
  let ps := update_at (get_or_create st.positions o.order_book_id)
    o.order_book_id Position.on_order_cancel_
  if o.side = SIDE.BUY then
    { st with
      positions := ps
      frozen_cash := st.frozen_cash - o.unfilled_quantity * o.frozen_price }
  else { st with positions := ps }

/-- `StockAccount._handle_dividend_payable(trading_date)`: credit and
remove every record whose `payable_date` equals today. -/
def handle_dividend_payable (st : StockAccount) (trading_date : ℕ) :
    StockAccount :=
  let credit := ((st.dividend_receivable.filter
      (fun kv => kv.2.payable_date = trading_date)).map
      (fun kv => kv.2.quantity * kv.2.dividend_per_share)).sum
  { st with
    total_cash := st.total_cash + credit
    dividend_receivable := st.dividend_receivable.filter
      (fun kv => kv.2.payable_date ≠ trading_date) }

/-- `StockAccount._handle_split(trading_date)`. -/
def handle_split (env : Env) (st : StockAccount) (trading_date : ℕ) :
    StockAccount :=
  { st with
    positions := st.positions.map (fun p =>
      match env.get_split_by_ex_date p.order_book_id trading_date with
      | none => p
      | some s => p.split_ (s.split_coefficient_to / s.split_coefficient_from)) }

/-- `StockAccount._before_trading`. -/
def before_trading (env : Env) (st : StockAccount) : StockAccount :=
  let st1 := handle_dividend_payable st env.trading_date
  if env.handle_split then handle_split env st1 env.trading_date else st1

/-- `StockAccount._after_trading`. -/
def after_trading (st : StockAccount) : StockAccount :=
  { st with positions := st.positions.map Position.after_trading_ }

/-- `StockAccount._handle_dividend_book_closure(trading_date)`. -/
def handle_dividend_book_closure (env : Env) (st : StockAccount)
    (trading_date : ℕ) : StockAccount :=
  { st with
    dividend_receivable := st.positions.foldl (fun tbl p =>
      match env.get_dividend_by_book_date p.order_book_id trading_date with
      | none => tbl
      | some dv => table_set tbl p.order_book_id
          { quantity := p.quantity
            dividend_per_share := dv.dividend_cash_before_tax / dv.round_lot
            payable_date := dv.payable_date }) st.dividend_receivable }

/-- One iteration of the settlement loop over the snapshot of positions. -/
def settle_position_step (env : Env) (s : StockAccount) (p : Position) :
    StockAccount :=
  if p.is_de_listed = true ∧ p.quantity ≠ 0 then
    { s with
      total_cash := if env.cash_return_by_stock_delisted then
          s.total_cash + p.market_value
        else s.total_cash
      positions := pop_key s.positions p.order_book_id }
  else if p.quantity = 0 then
    { s with positions := pop_key s.positions p.order_book_id }
  else
    { s with
      positions := update_at s.positions p.order_book_id
        Position.apply_settlement }

/-- `StockAccount._on_settlement`: process the snapshot of positions,
clear the dedup set, then run dividend book closure for today. -/
def on_settlement (env : Env) (st : StockAccount) (trading_date : ℕ) :
    StockAccount :=
  let st1 := st.positions.foldl (settle_position_step env) st
  let st2 := { st1 with backward_trade_set := (∅ : Finset ℕ) }
  handle_dividend_book_closure env st2 trading_date

/-- `d["quantity"]` where `d` is a `(key, value)` pair yielded by
`six.iteritems`: indexing a tuple with a string key raises `TypeError`
in Python, modelled as an error value. -/
def tuple_getitem_str (d : String × DividendRecord) (k : String) :
    Except String ℚ :=
  Except.error "TypeError: tuple indices must be integers"

/-- The `dividend_receivable` property exactly as written:
`sum(d['quantity'] * d['dividend_per_share'] for d in six.iteritems(self._dividend_receivable))`.
Each `d` is a `(key, record)` pair, so the string indexing raises on any
nonempty table; the empty sum is `0`. -/
def dividend_receivable_read (st : StockAccount) : Except String ℚ :=
  st.dividend_receivable.foldlM
    (fun acc d => do
      let q ← tuple_getitem_str d "quantity"
      let dps ← tuple_getitem_str d "dividend_per_share"
      pure (acc + q * dps))
    (0 : ℚ)

/-- The value the spec assigns to the `dividend_receivable` accessor: the
sum over pending-dividend records of `quantity × dividend_per_share`
(stated for comparison with `dividend_receivable_read`). -/
def dividend_receivable_spec (st : StockAccount) : ℚ :=
  (st.dividend_receivable.map
    (fun kv => kv.2.quantity * kv.2.dividend_per_share)).sum

/-- Modelled from the spec: the inherited accessor `BaseAccount.market_value`
(base_account.py is not under src/). Spec §4.4: `total_value` — which the
source defines as `self.market_value` — is the cash balance plus the
aggregate market value of all positions. -/
def market_value (st : StockAccount) : ℚ :=
  st.total_cash + (st.positions.map Position.market_value).sum

/-- The `total_value` property: `return self.market_value`. -/
def total_value (st : StockAccount) : ℚ :=
  market_value st

/-! ## Concrete fixtures -/

/-- A sample instrument symbol. -/
def sym0 : String := "000001.XSHE"

/-- A fresh account with 100000 cash and nothing else. -/
def init_scenario : StockAccount :=
  { total_cash := 100000
    frozen_cash := 0
    positions := []
    backward_trade_set := (∅ : Finset ℕ)
    dividend_receivable := [] }

/-- An account whose dedup set already holds execution id 7. -/
def st_dedup : StockAccount :=
  { init_scenario with backward_trade_set := ({7} : Finset ℕ) }

/-- A buy trade (100 shares at 49.9, cost 1, reserved at 50) with
execution id 7. -/
def trade_dup : Trade :=
  { exec_id := 7
    order_book_id := sym0
    side := SIDE.BUY
    last_quantity := 100
    last_price := 499/10
    transaction_cost := 1
    frozen_price := 50 }

/-- The spec's example order: buy 100 shares at frozen price 50. -/
def buy_order_scenario : Order :=
  { order_book_id := sym0
    side := SIDE.BUY
    quantity := 100
    unfilled_quantity := 100
    frozen_price := 50
    is_final := false }

/-- The spec's example fill: all 100 shares at 49.9, transaction cost 1. -/
def fill_trade_scenario : Trade :=
  { exec_id := 1
    order_book_id := sym0
    side := SIDE.BUY
    last_quantity := 100
    last_price := 499/10
    transaction_cost := 1
    frozen_price := 50 }

/-- A non-final sell order for 100 shares with frozen price 50. -/
def sell_order_pending : Order :=
  { order_book_id := sym0
    side := SIDE.SELL
    quantity := 100
    unfilled_quantity := 100
    frozen_price := 50
    is_final := false }

/-- An account whose pending-dividend table holds one record
(100 shares at 0.5 per share). -/
def one_dividend_state : StockAccount :=
  { total_cash := 0
    frozen_cash := 0
    positions := []
    backward_trade_set := (∅ : Finset ℕ)
    dividend_receivable :=
      [(sym0, { quantity := 100, dividend_per_share := 1/2,
                payable_date := 20170705 })] }

/-! ## Helper lemmas -/

/-- The dedup guard: a trade whose execution id is already recorded is a
no-op. -/
lemma apply_trade_of_mem (st : StockAccount) (t : Trade)
    (h : t.exec_id ∈ st.backward_trade_set) : apply_trade st t = st := by
  unfold apply_trade
  simp [h]

/-- After applying a trade, its execution id is recorded. -/
lemma exec_id_mem_apply_trade (st : StockAccount) (t : Trade) :
    t.exec_id ∈ (apply_trade st t).backward_trade_set := by
  unfold apply_trade
  by_cases h : t.exec_id ∈ st.backward_trade_set
  · simp [h]
  · by_cases hs : t.side = SIDE.BUY <;> simp [h, hs]

/-! ## Claims -/

/-- C1: trade application is idempotent per execution id: if the trade's
`exec_id` is already in `backward_trade_set` then `_apply_trade` leaves
the whole ledger state unchanged, hence applying the same trade twice
equals applying it once. -/
theorem apply_trade_idempotent (st : StockAccount) (t : Trade) :
    (t.exec_id ∈ st.backward_trade_set → apply_trade st t = st) ∧
    apply_trade (apply_trade st t) t = apply_trade st t :=
  ⟨apply_trade_of_mem st t,
   apply_trade_of_mem (apply_trade st t) t (exec_id_mem_apply_trade st t)⟩

/-- C1 witness: at a concrete account whose dedup set holds id 7, the
duplicate trade is a no-op and reapplication changes nothing. -/
theorem apply_trade_idempotent_witness :
    apply_trade st_dedup trade_dup = st_dedup ∧
    apply_trade (apply_trade st_dedup trade_dup) trade_dup =
      apply_trade st_dedup trade_dup :=
  ⟨(apply_trade_idempotent st_dedup trade_dup).1 (by decide),
   (apply_trade_idempotent st_dedup trade_dup).2⟩

/-- C2: divergence of `fast_forward` from the live handlers — the
recomputation of `frozen_cash` has no buy-side filter, so a single
non-final SELL order gives `frozen_cash = 5000` under `fast_forward`
while incremental processing of the same history through the live
pending-new handler leaves `frozen_cash = 0`. -/
theorem fast_forward_sell_frozen_divergence :
    (fast_forward init_scenario [sell_order_pending] []).frozen_cash = 5000 ∧
    (on_order_pending_new init_scenario sell_order_pending).frozen_cash = 0 ∧
    (5000 : ℚ) ≠ 0 := by
  refine ⟨?_, ?_, by norm_num⟩
  · norm_num [fast_forward, init_scenario, sell_order_pending]
  · rfl

/-- C3: the `dividend_receivable` property iterates `six.iteritems` (the
`(key, record)` pairs) and string-indexes each pair, so it raises
`TypeError` on any nonempty table instead of returning the sum of
`quantity × dividend_per_share` (here 50); on an empty table the empty
sum 0 is returned without touching a pair. -/
theorem dividend_receivable_read_raises :
    dividend_receivable_read one_dividend_state =
      Except.error "TypeError: tuple indices must be integers" ∧
    dividend_receivable_spec one_dividend_state = 50 ∧
    dividend_receivable_read
      { one_dividend_state with dividend_receivable := [] } = Except.ok 0 := by
  refine ⟨rfl, ?_, rfl⟩
  norm_num [dividend_receivable_spec, one_dividend_state]

/-- C4: `total_value` returns the cash balance plus the aggregate market
value of the held positions, as a pure function of the ledger state. -/
theorem total_value_is_cash_plus_market_value (st : StockAccount) :
    total_value st =
      st.total_cash + (st.positions.map Position.market_value).sum := rfl

/-- C9 counterexample: in the spec's example scenario the code yields
`total_cash = 95009`, not the claimed 94 (the claim's own arithmetic
`100000 − 4990 − 1` also equals 95009). -/
theorem example_scenario_cex :
    (apply_trade (on_order_pending_new init_scenario buy_order_scenario)
        fill_trade_scenario).total_cash = 95009 ∧
    (95009 : ℚ) ≠ 94 := by
  refine ⟨?_, by norm_num⟩
  norm_num [apply_trade, on_order_pending_new, init_scenario,
    buy_order_scenario, fill_trade_scenario, get_or_create, update_at,
    Position.new, Position.on_order_pending_new_, Position.apply_trade_]

/-- C9 amended: initial cash 100000; the pending-new buy order (100
shares at frozen price 50) makes `frozen_cash = 5000`; the full fill at
49.9 with cost 1 yields `total_cash = 100000 − 4990 − 1 = 95009`,
`frozen_cash = 0`, and position quantity 100. -/
theorem example_scenario_amended :
    (on_order_pending_new init_scenario buy_order_scenario).frozen_cash
      = 5000 ∧
    (apply_trade (on_order_pending_new init_scenario buy_order_scenario)
        fill_trade_scenario).total_cash = 100000 - 4990 - 1 ∧
    (apply_trade (on_order_pending_new init_scenario buy_order_scenario)
        fill_trade_scenario).frozen_cash = 0 ∧
    ((apply_trade (on_order_pending_new init_scenario buy_order_scenario)
        fill_trade_scenario).positions.map Position.quantity) = [100] := by
  refine ⟨?_, ?_, ?_, ?_⟩ <;>
    norm_num [apply_trade, on_order_pending_new, init_scenario,
      buy_order_scenario, fill_trade_scenario, get_or_create, update_at,
      Position.new, Position.on_order_pending_new_, Position.apply_trade_]

/-! ## Shared default dedup set (constructor default argument) -/

/-- The per-instance fields of a `StockAccount` other than the dedup set
(each instance gets fresh cash, positions and dividend table). -/
structure AccountCore where
  total_cash : ℚ
  frozen_cash : ℚ
  positions : List Position
  dividend_receivable : List (String × DividendRecord)
deriving DecidableEq

/-- View one instance together with the (possibly shared) dedup set as a
`StockAccount`, so the very same `apply_trade` code runs on it. -/
def with_set (c : AccountCore) (s : Finset ℕ) : StockAccount :=
  { total_cash := c.total_cash
    frozen_cash := c.frozen_cash
    positions := c.positions
    backward_trade_set := s
    dividend_receivable := c.dividend_receivable }

/-- Project the per-instance fields back out of a `StockAccount`. -/
def core_of (st : StockAccount) : AccountCore :=
  { total_cash := st.total_cash
    frozen_cash := st.frozen_cash
    positions := st.positions
    dividend_receivable := st.dividend_receivable }

/-- Two `StockAccount` instances constructed without an explicit
`backward_trade_set` argument. The default `set()` in
`__init__(self, total_cash, positions, backward_trade_set=set(), ...)`
is evaluated once, at function definition time, so both instances alias
one and the same set object, modelled here as the single shared field. -/
structure TwoAccounts where
  shared_backward_trade_set : Finset ℕ
  first_account : AccountCore
  second_account : AccountCore
deriving DecidableEq

/-- `_apply_trade` invoked on the first instance: it reads and writes the
shared default set. -/
def apply_trade_first (w : TwoAccounts) (t : Trade) : TwoAccounts :=
  let st := apply_trade (with_set w.first_account w.shared_backward_trade_set) t
  { w with
    first_account := core_of st
    shared_backward_trade_set := st.backward_trade_set }

/-- `_apply_trade` invoked on the second instance: it reads and writes
the very same shared default set. -/
def apply_trade_second (w : TwoAccounts) (t : Trade) : TwoAccounts :=
  let st := apply_trade (with_set w.second_account w.shared_backward_trade_set) t
  { w with
    second_account := core_of st
    shared_backward_trade_set := st.backward_trade_set }

lemma core_of_with_set (c : AccountCore) (s : Finset ℕ) :
    core_of (with_set c s) = c := rfl

lemma with_set_backward_trade_set (c : AccountCore) (s : Finset ℕ) :
    (with_set c s).backward_trade_set = s := rfl

/-- C10: because the constructor default `backward_trade_set=set()` is
evaluated once, every two instances built without that argument share
one dedup set: once a trade with some execution id has been applied
through the first instance, delivering a trade with the same execution
id to the second instance changes nothing — not the second instance's
cash or positions, and not the shared set. -/
theorem shared_default_set_cross_dedup (w : TwoAccounts) (t t' : Trade)
    (h : t'.exec_id = t.exec_id) :
    apply_trade_second (apply_trade_first w t) t' = apply_trade_first w t ∧
    (apply_trade_second (apply_trade_first w t) t').second_account =
      w.second_account := by
  have hmem : t'.exec_id ∈
      (with_set (apply_trade_first w t).second_account
        (apply_trade_first w t).shared_backward_trade_set).backward_trade_set := by
    rw [with_set_backward_trade_set, h]
    exact exec_id_mem_apply_trade _ t
  have hfix := apply_trade_of_mem _ t' hmem
  have hmain : apply_trade_second (apply_trade_first w t) t' =
      apply_trade_first w t := by
    simp only [apply_trade_second, hfix, core_of_with_set,
      with_set_backward_trade_set]
  exact ⟨hmain, by rw [hmain]; rfl⟩

/-- A world of two fresh default-constructed accounts. -/
def two_fresh_accounts : TwoAccounts :=
  { shared_backward_trade_set := (∅ : Finset ℕ)
    first_account := core_of init_scenario
    second_account := core_of init_scenario }

/-- A different trade record carrying the same execution id 1. -/
def cross_trade : Trade :=
  { exec_id := 1
    order_book_id := "600000.XSHG"
    side := SIDE.SELL
    last_quantity := 10
    last_price := 8
    transaction_cost := 0
    frozen_price := 0 }

/-- C10 witness: after a trade with id 1 through the first fresh
instance, a trade with id 1 delivered to the second fresh instance has
no effect. -/
theorem shared_default_set_cross_dedup_witness :
    apply_trade_second (apply_trade_first two_fresh_accounts
        fill_trade_scenario) cross_trade =
      apply_trade_first two_fresh_accounts fill_trade_scenario ∧
    (apply_trade_second (apply_trade_first two_fresh_accounts
        fill_trade_scenario) cross_trade).second_account =
      two_fresh_accounts.second_account :=
  shared_default_set_cross_dedup two_fresh_accounts fill_trade_scenario
    cross_trade rfl

/-! ## Frozen-cash sign behaviour -/

/-- The settlement loop never touches `frozen_cash`. -/
lemma settle_fold_frozen_cash (env : Env) (todo : List Position) :
    ∀ s : StockAccount,
      (todo.foldl (settle_position_step env) s).frozen_cash = s.frozen_cash := by
  induction todo with
  | nil => intro s; rfl
  | cons p rest ih =>
      intro s
      rw [List.foldl_cons, ih]
      unfold settle_position_step
      split
      · rfl
      · split <;> rfl

/-- The before-trading handler never touches `frozen_cash`. -/
lemma before_trading_frozen_cash (env : Env) (st : StockAccount) :
    (before_trading env st).frozen_cash = st.frozen_cash := by
  unfold before_trading handle_split handle_dividend_payable
  by_cases h : env.handle_split <;> simp [h]

/-- The settlement handler never touches `frozen_cash`. -/
lemma on_settlement_frozen_cash (env : Env) (st : StockAccount) (d : ℕ) :
    (on_settlement env st d).frozen_cash = st.frozen_cash := by
  unfold on_settlement handle_dividend_book_closure
  simp [settle_fold_frozen_cash]

/-- C8 counterexample: from a state with `frozen_cash = 0` (hence ≥ 0),
applying a buy trade drives `frozen_cash` to −5000 < 0: trade
application subtracts `frozen_price × quantity` unconditionally. -/
theorem frozen_cash_nonneg_cex :
    init_scenario.frozen_cash = 0 ∧
    (apply_trade init_scenario fill_trade_scenario).frozen_cash = -5000 ∧
    (-5000 : ℚ) < 0 := by
  refine ⟨rfl, ?_, by norm_num⟩
  norm_num [apply_trade, init_scenario, fill_trade_scenario, get_or_create,
    update_at, Position.new, Position.apply_trade_]

/-- C8 amended: from a state with `frozen_cash ≥ 0`, every handler
leaves `frozen_cash ≥ 0` except that buy-side trade application and
buy-side unsolicited updates—which subtract the reserved value
unconditionally—do so only when the subtracted amount does not exceed
the current `frozen_cash`; pending-new needs a nonnegative reservation. -/
theorem frozen_cash_nonneg_amended (st : StockAccount)
    (h : 0 ≤ st.frozen_cash) :
    (∀ o : Order, 0 ≤ o.frozen_price → 0 ≤ o.quantity →
      0 ≤ (on_order_pending_new st o).frozen_cash) ∧
    (∀ o : Order, o.side = SIDE.SELL →
      0 ≤ (on_order_unsolicited_update st o).frozen_cash) ∧
    (∀ o : Order, o.side = SIDE.BUY →
      o.unfilled_quantity * o.frozen_price ≤ st.frozen_cash →
      0 ≤ (on_order_unsolicited_update st o).frozen_cash) ∧
    (∀ t : Trade, t.side = SIDE.SELL → 0 ≤ (apply_trade st t).frozen_cash) ∧
    (∀ t : Trade, t.side = SIDE.BUY →
      t.frozen_price * t.last_quantity ≤ st.frozen_cash →
      0 ≤ (apply_trade st t).frozen_cash) ∧
    (∀ env : Env, 0 ≤ (before_trading env st).frozen_cash) ∧
    0 ≤ (after_trading st).frozen_cash ∧
    (∀ (env : Env) (d : ℕ), 0 ≤ (on_settlement env st d).frozen_cash) := by
  refine ⟨?_, ?_, ?_, ?_, ?_, ?_, h, ?_⟩
  · intro o hp hq
    by_cases hs : o.side = SIDE.BUY <;>
      simp only [on_order_pending_new, hs, if_true, if_false, reduceIte]
    · exact add_nonneg h (mul_nonneg hp hq)
    · exact h
  · intro o hs
    have hs' : ¬ o.side = SIDE.BUY := by rw [hs]; intro hc; cases hc
    simp only [on_order_unsolicited_update, hs', if_false, reduceIte]
    exact h
  · intro o hs hb
    simp only [on_order_unsolicited_update, hs, if_true, reduceIte]
    exact sub_nonneg.mpr hb
  · intro t hs
    by_cases hm : t.exec_id ∈ st.backward_trade_set
    · rw [apply_trade_of_mem st t hm]; exact h
    · have hs' : ¬ t.side = SIDE.BUY := by rw [hs]; intro hc; cases hc
      simp only [apply_trade, hm, hs', if_false, reduceIte]
      exact h
  · intro t hs hb
    by_cases hm : t.exec_id ∈ st.backward_trade_set
    · rw [apply_trade_of_mem st t hm]; exact h
    · simp only [apply_trade, hm, hs, if_true, if_false, reduceIte]
      exact sub_nonneg.mpr hb
  · intro env
    rw [before_trading_frozen_cash]; exact h
  · intro env d
    rw [on_settlement_frozen_cash]; exact h

/-- C8 witness: at the fresh account (frozen_cash = 0 ≥ 0), a concrete
pending-new buy order and the after-trading handler both leave
`frozen_cash` nonnegative. -/
theorem frozen_cash_nonneg_amended_witness :
    (0 : ℚ) ≤ init_scenario.frozen_cash ∧
    0 ≤ (on_order_pending_new init_scenario buy_order_scenario).frozen_cash ∧
    0 ≤ (after_trading init_scenario).frozen_cash :=
  ⟨by norm_num [init_scenario],
   (frozen_cash_nonneg_amended init_scenario (by norm_num [init_scenario])).1
     buy_order_scenario (by norm_num [buy_order_scenario])
     (by norm_num [buy_order_scenario]),
   (frozen_cash_nonneg_amended init_scenario
     (by norm_num [init_scenario])).2.2.2.2.2.2.1⟩

/-! ## Settlement clears the dedup window -/

/-- The effect of `_apply_trade` past the dedup guard (the body after the
early return), named so that "the trade is applied in full" can be
stated. -/
def apply_trade_unguarded (st : StockAccount) (t : Trade) : StockAccount :=
  let ps := get_or_create st.positions t.order_book_id
  let cash1 := st.total_cash - t.transaction_cost
  if t.side = SIDE.BUY then
    { st with
      total_cash := cash1 - t.last_quantity * t.last_price
      frozen_cash := st.frozen_cash - t.frozen_price * t.last_quantity
      positions := update_at ps t.order_book_id (fun p => p.apply_trade_ t)
      backward_trade_set := insert t.exec_id st.backward_trade_set }
  else
    { st with
      total_cash := cash1 + t.last_price * t.last_quantity
      positions := ps
      backward_trade_set := insert t.exec_id st.backward_trade_set }

/-- An unrecorded trade is applied in full. -/
lemma apply_trade_of_not_mem (st : StockAccount) (t : Trade)
    (h : t.exec_id ∉ st.backward_trade_set) :
    apply_trade st t = apply_trade_unguarded st t := by
  unfold apply_trade apply_trade_unguarded
  simp [h]

/-- The settlement handler leaves the dedup set empty. -/
lemma on_settlement_backward_trade_set (env : Env) (st : StockAccount)
    (d : ℕ) : (on_settlement env st d).backward_trade_set = (∅ : Finset ℕ) :=
  rfl

/-- C7: the dedup window is intra-day: a trade whose execution id is
recorded before settlement is skipped there, the settlement handler
leaves `backward_trade_set` empty, and the same trade redelivered after
that settlement passes the guard and is applied in full (treated as
new). -/
theorem settlement_resets_dedup_window (env : Env) (st : StockAccount)
    (d : ℕ) (t : Trade) (h : t.exec_id ∈ st.backward_trade_set) :
    apply_trade st t = st ∧
    (on_settlement env st d).backward_trade_set = (∅ : Finset ℕ) ∧
    apply_trade (on_settlement env st d) t =
      apply_trade_unguarded (on_settlement env st d) t := by
  refine ⟨apply_trade_of_mem st t h, on_settlement_backward_trade_set env st d,
    apply_trade_of_not_mem _ t ?_⟩
  rw [on_settlement_backward_trade_set env st d]
  exact Finset.not_mem_empty _

/-- An environment with no pending corporate actions and all flags off. -/
def env0 : Env :=
  { trading_date := 20170704
    handle_split := false
    cash_return_by_stock_delisted := false
    get_dividend_by_book_date := fun _ _ => none
    get_split_by_ex_date := fun _ _ => none }

/-- C7 witness: id 7 is recorded, so the trade is skipped before
settlement and applied in full after it. -/
theorem settlement_resets_dedup_window_witness :
    apply_trade st_dedup trade_dup = st_dedup ∧
    (on_settlement env0 st_dedup 20170704).backward_trade_set =
      (∅ : Finset ℕ) ∧
    apply_trade (on_settlement env0 st_dedup 20170704) trade_dup =
      apply_trade_unguarded (on_settlement env0 st_dedup 20170704) trade_dup :=
  settlement_resets_dedup_window env0 st_dedup 20170704 trade_dup (by decide)

/-! ## Settlement loop characterization -/

/-- The per-position outcome of the settlement loop: a delisted position
with residual quantity and a zero-quantity position are dropped; any
other position is kept with its settlement delegate applied. -/
def settle_keep (p : Position) : Option Position :=
  if p.is_de_listed = true ∧ p.quantity ≠ 0 then none
  else if p.quantity = 0 then none
  else some p.apply_settlement

/-- The cash credited by the settlement loop: the market value of every
delisted position with residual quantity, gated by the
`cash_return_by_stock_delisted` flag. -/
def delisted_credit (env : Env) (l : List Position) : ℚ :=
  (l.map (fun p =>
    if p.is_de_listed = true ∧ p.quantity ≠ 0 then
      (if env.cash_return_by_stock_delisted then p.market_value else 0)
    else 0)).sum

lemma delisted_credit_cons (env : Env) (p : Position) (l : List Position) :
    delisted_credit env (p :: l) =
      (if p.is_de_listed = true ∧ p.quantity ≠ 0 then
        (if env.cash_return_by_stock_delisted then p.market_value else 0)
       else 0) + delisted_credit env l := by
  unfold delisted_credit
  rw [List.map_cons, List.sum_cons]

lemma pop_key_append (a b : List Position) (k : String) :
    pop_key (a ++ b) k = pop_key a k ++ pop_key b k := by
  unfold pop_key
  exact List.filter_append _ _

lemma pop_key_cons_self (p : Position) (l : List Position) :
    pop_key (p :: l) p.order_book_id = pop_key l p.order_book_id := by
  simp [pop_key, List.filter_cons]

lemma pop_key_of_forall_ne (k : String) :
    ∀ l : List Position, (∀ p ∈ l, p.order_book_id ≠ k) → pop_key l k = l := by
  intro l h
  unfold pop_key
  rw [List.filter_eq_self]
  intro a ha
  simp [h a ha]

lemma update_at_append (a b : List Position) (k : String)
    (f : Position → Position) :
    update_at (a ++ b) k f = update_at a k f ++ update_at b k f := by
  unfold update_at
  exact List.map_append _ _ _

lemma update_at_cons_self (p : Position) (l : List Position)
    (f : Position → Position) :
    update_at (p :: l) p.order_book_id f =
      f p :: update_at l p.order_book_id f := by
  unfold update_at
  rw [List.map_cons, if_pos rfl]

lemma update_at_of_forall_ne (k : String) (f : Position → Position) :
    ∀ l : List Position, (∀ p ∈ l, p.order_book_id ≠ k) →
      update_at l k f = l := by
  intro l
  unfold update_at
  induction l with
  | nil => intro _; rfl
  | cons q rest ih =>
      intro h
      rw [List.map_cons, if_neg (h q (List.mem_cons_self q rest)),
        ih (fun p hp => h p (List.mem_cons_of_mem q hp))]

lemma settle_keep_of_delisted (p : Position)
    (h : p.is_de_listed = true ∧ p.quantity ≠ 0) : settle_keep p = none := by
  unfold settle_keep
  rw [if_pos h]

lemma settle_keep_of_zero (p : Position)
    (h1 : ¬(p.is_de_listed = true ∧ p.quantity ≠ 0)) (h2 : p.quantity = 0) :
    settle_keep p = none := by
  unfold settle_keep
  rw [if_neg h1, if_pos h2]

lemma settle_keep_of_live (p : Position)
    (h1 : ¬(p.is_de_listed = true ∧ p.quantity ≠ 0)) (h2 : ¬p.quantity = 0) :
    settle_keep p = some p.apply_settlement := by
  unfold settle_keep
  rw [if_neg h1, if_neg h2]

/-- Master characterization of the settlement loop: folding
`settle_position_step` over a snapshot `todo` (with `done` the already
processed survivors in front and all keys distinct) removes the
delisted-with-quantity and zero-quantity entries, settles the rest in
place, credits the gated market values, and touches nothing else. -/
lemma settle_fold_spec (env : Env) :
    ∀ (todo done : List Position) (s : StockAccount),
      s.positions = done ++ todo →
      ((done ++ todo).map Position.order_book_id).Nodup →
      (todo.foldl (settle_position_step env) s).positions =
          done ++ todo.filterMap settle_keep ∧
      (todo.foldl (settle_position_step env) s).total_cash =
          s.total_cash + delisted_credit env todo ∧
      (todo.foldl (settle_position_step env) s).backward_trade_set =
          s.backward_trade_set ∧
      (todo.foldl (settle_position_step env) s).dividend_receivable =
          s.dividend_receivable := by
  intro todo
  induction todo with
  | nil =>
      intro done s hpos _
      refine ⟨?_, ?_, rfl, rfl⟩
      · simpa using hpos
      · simp [delisted_credit]
  | cons p rest ih =>
      intro done s hpos hnd
      have hmap : ((done.map Position.order_book_id) ++
          (p.order_book_id :: rest.map Position.order_book_id)).Nodup := by
        simpa using hnd
      have hnd3 := List.nodup_append.mp hmap
      have hnotdone : ∀ q ∈ done, q.order_book_id ≠ p.order_book_id := by
        intro q hq hcontra
        exact hnd3.2.2 (List.mem_map_of_mem _ hq)
          (by rw [hcontra]; exact List.mem_cons_self _ _)
      have hnotrest : ∀ q ∈ rest, q.order_book_id ≠ p.order_book_id := by
        intro q hq hcontra
        exact (List.nodup_cons.mp hnd3.2.1).1
          (hcontra ▸ List.mem_map_of_mem _ hq)
      have hndtail : ((done ++ rest).map Position.order_book_id).Nodup := by
        refine hnd.sublist (List.Sublist.map _ ?_)
        exact (List.sublist_cons_self p rest).append_left done
      rw [List.foldl_cons]
      by_cases hA : p.is_de_listed = true ∧ p.quantity ≠ 0
      · have hstep : settle_position_step env s p =
            { s with
              total_cash := if env.cash_return_by_stock_delisted then
                  s.total_cash + p.market_value
                else s.total_cash
              positions := pop_key s.positions p.order_book_id } := by
          unfold settle_position_step
          rw [if_pos hA]
        have hpop : pop_key s.positions p.order_book_id = done ++ rest := by
          rw [hpos, pop_key_append, pop_key_cons_self,
            pop_key_of_forall_ne _ done hnotdone,
            pop_key_of_forall_ne _ rest hnotrest]
        rw [hstep]
        obtain ⟨h1, h2, h3, h4⟩ := ih done
          { s with
            total_cash := if env.cash_return_by_stock_delisted then
                s.total_cash + p.market_value
              else s.total_cash
            positions := pop_key s.positions p.order_book_id }
          (by simpa using hpop) (by simpa using hndtail)
        refine ⟨?_, ?_, h3, h4⟩
        · rw [h1, List.filterMap_cons, settle_keep_of_delisted p hA]
        · rw [h2, delisted_credit_cons, if_pos hA]
          by_cases hflag : env.cash_return_by_stock_delisted <;>
            simp [hflag] <;> ring
      · by_cases hB : p.quantity = 0
        · have hstep : settle_position_step env s p =
              { s with positions := pop_key s.positions p.order_book_id } := by
            unfold settle_position_step
            rw [if_neg hA, if_pos hB]
          have hpop : pop_key s.positions p.order_book_id = done ++ rest := by
            rw [hpos, pop_key_append, pop_key_cons_self,
              pop_key_of_forall_ne _ done hnotdone,
              pop_key_of_forall_ne _ rest hnotrest]
          rw [hstep]
          obtain ⟨h1, h2, h3, h4⟩ := ih done
            { s with positions := pop_key s.positions p.order_book_id }
            (by simpa using hpop) (by simpa using hndtail)
          refine ⟨?_, ?_, h3, h4⟩
          · rw [h1, List.filterMap_cons, settle_keep_of_zero p hA hB]
          · rw [h2, delisted_credit_cons, if_neg hA]
            simp
        · have hstep : settle_position_step env s p =
              { s with
                positions := update_at s.positions p.order_book_id
                  Position.apply_settlement } := by
            unfold settle_position_step
            rw [if_neg hA, if_neg hB]
          have hupd : update_at s.positions p.order_book_id
              Position.apply_settlement =
                (done ++ [p.apply_settlement]) ++ rest := by
            rw [hpos, update_at_append, update_at_cons_self,
              update_at_of_forall_ne _ _ done hnotdone,
              update_at_of_forall_ne _ _ rest hnotrest,
              List.append_assoc]
            rfl
          have hndset :
              (((done ++ [p.apply_settlement]) ++ rest).map
                Position.order_book_id).Nodup := by
            have hsame : ((done ++ [p.apply_settlement]) ++ rest).map
                Position.order_book_id =
                  (done ++ p :: rest).map Position.order_book_id := by
              simp [Position.apply_settlement]
            rw [hsame]
            exact hnd
          rw [hstep]
          obtain ⟨h1, h2, h3, h4⟩ := ih (done ++ [p.apply_settlement])
            { s with
              positions := update_at s.positions p.order_book_id
                Position.apply_settlement }
            (by simpa using hupd) hndset
          refine ⟨?_, ?_, h3, h4⟩
          · rw [h1, List.filterMap_cons, settle_keep_of_live p hA hB,
              List.append_assoc]
            rfl
          · rw [h2, delisted_credit_cons, if_neg hA]
            simp

/-- A kept position has nonzero quantity (settlement preserves it). -/
lemma settle_keep_quantity_ne_zero {q p : Position}
    (h : settle_keep q = some p) : p.quantity ≠ 0 := by
  unfold settle_keep at h
  by_cases h1 : q.is_de_listed = true ∧ q.quantity ≠ 0
  · rw [if_pos h1] at h; cases h
  · rw [if_neg h1] at h
    by_cases h2 : q.quantity = 0
    · rw [if_pos h2] at h; cases h
    · rw [if_neg h2] at h
      cases h
      exact h2

/-- With the cash-return flag off, the settlement loop credits nothing. -/
lemma delisted_credit_of_flag_false (env : Env)
    (hf : env.cash_return_by_stock_delisted = false) (l : List Position) :
    delisted_credit env l = 0 := by
  unfold delisted_credit
  apply List.sum_eq_zero
  intro x hx
  obtain ⟨p, hp, rfl⟩ := List.mem_map.mp hx
  rw [hf]
  simp

/-- C6: after the settlement handler, the position store is exactly the
snapshot filtered through `settle_keep` — so no zero-quantity position
remains, every delisted position with residual quantity is gone, every
live position survives with its settlement delegate applied — and
`total_cash` grows by exactly the flag-gated market value of the removed
delisted positions (no credit at all when the flag is off). -/
theorem on_settlement_positions_spec (env : Env) (st : StockAccount) (d : ℕ)
    (hnd : (st.positions.map Position.order_book_id).Nodup) :
    (on_settlement env st d).positions = st.positions.filterMap settle_keep ∧
    (∀ p ∈ (on_settlement env st d).positions, p.quantity ≠ 0) ∧
    (∀ p ∈ st.positions, p.is_de_listed = false → p.quantity ≠ 0 →
      p.apply_settlement ∈ (on_settlement env st d).positions) ∧
    (on_settlement env st d).total_cash =
      st.total_cash + delisted_credit env st.positions ∧
    (env.cash_return_by_stock_delisted = false →
      (on_settlement env st d).total_cash = st.total_cash) := by
  obtain ⟨h1, h2, h3, h4⟩ :=
    settle_fold_spec env st.positions [] st (by simp) (by simpa using hnd)
  have hpos : (on_settlement env st d).positions =
      st.positions.filterMap settle_keep := by
    show (st.positions.foldl (settle_position_step env) st).positions = _
    simpa using h1
  have hcash : (on_settlement env st d).total_cash =
      st.total_cash + delisted_credit env st.positions := by
    show (st.positions.foldl (settle_position_step env) st).total_cash = _
    exact h2
  refine ⟨hpos, ?_, ?_, hcash, ?_⟩
  · intro p hp
    rw [hpos] at hp
    obtain ⟨q, _, hkeep⟩ := List.mem_filterMap.mp hp
    exact settle_keep_quantity_ne_zero hkeep
  · intro p hp hdl hq
    rw [hpos]
    apply List.mem_filterMap.mpr
    refine ⟨p, hp, settle_keep_of_live p ?_ hq⟩
    intro hcon
    exact absurd hcon.1 (by simp [hdl])
  · intro hf
    rw [hcash, delisted_credit_of_flag_false env hf, add_zero]

/-- A delisted position with residual quantity 300 and market value 1200. -/
def pos_delisted : Position :=
  { order_book_id := "000005.XSHE"
    quantity := 300
    de_listed := true
    market_value := 1200
    pending_new_count := 0
    cancel_count := 0
    after_trading_count := 0
    settled_count := 0 }

/-- A live position whose quantity has been traded down to zero. -/
def pos_zero : Position :=
  { order_book_id := "000006.XSHE"
    quantity := 0
    de_listed := false
    market_value := 0
    pending_new_count := 0
    cancel_count := 0
    after_trading_count := 0
    settled_count := 0 }

/-- A live position with 100 shares. -/
def pos_live : Position :=
  { order_book_id := "000001.XSHE"
    quantity := 100
    de_listed := false
    market_value := 5000
    pending_new_count := 0
    cancel_count := 0
    after_trading_count := 0
    settled_count := 0 }

/-- An account holding the three sample positions before settlement. -/
def settle_state : StockAccount :=
  { total_cash := 1000
    frozen_cash := 0
    positions := [pos_delisted, pos_zero, pos_live]
    backward_trade_set := ({3} : Finset ℕ)
    dividend_receivable := [] }

/-- An environment with the delisted-cash-return flag enabled. -/
def env_credit : Env :=
  { env0 with cash_return_by_stock_delisted := true }

/-- C6 witness: the settlement conclusions at a concrete store holding a
delisted position, a zero-quantity position and a live one. -/
theorem on_settlement_positions_spec_witness :
    (on_settlement env_credit settle_state 20170704).positions =
      settle_state.positions.filterMap settle_keep ∧
    (∀ p ∈ (on_settlement env_credit settle_state 20170704).positions,
      p.quantity ≠ 0) ∧
    (∀ p ∈ settle_state.positions, p.is_de_listed = false →
      p.quantity ≠ 0 →
      p.apply_settlement ∈
        (on_settlement env_credit settle_state 20170704).positions) ∧
    (on_settlement env_credit settle_state 20170704).total_cash =
      settle_state.total_cash + delisted_credit env_credit
        settle_state.positions ∧
    (env_credit.cash_return_by_stock_delisted = false →
      (on_settlement env_credit settle_state 20170704).total_cash =
        settle_state.total_cash) :=
  on_settlement_positions_spec env_credit settle_state 20170704 (by decide)


/-! ## Dividend table lemmas -/

lemma table_lookup_cons (kv : String × DividendRecord)
    (tbl : List (String × DividendRecord)) (k : String) :
    table_lookup (kv :: tbl) k =
      if kv.1 = k then some kv.2 else table_lookup tbl k := by
  unfold table_lookup
  by_cases hk : kv.1 = k
  · rw [if_pos hk, List.find?_cons_of_pos _ (by simp [hk])]
    rfl
  · rw [if_neg hk, List.find?_cons_of_neg _ (by simp [hk])]

lemma overwrite_lookup (k : String) (r : DividendRecord) :
    ∀ tbl : List (String × DividendRecord),
      tbl.any (fun kv => kv.1 = k) = true →
      table_lookup (tbl.map (fun kv => if kv.1 = k then (k, r) else kv)) k =
        some r := by
  intro tbl
  induction tbl with
  | nil => intro h; simp at h
  | cons kv rest ih =>
      intro h
      rw [List.map_cons]
      by_cases hk : kv.1 = k
      · rw [if_pos hk, table_lookup_cons]
        simp
      · rw [if_neg hk, table_lookup_cons, if_neg hk]
        apply ih
        rw [List.any_cons, Bool.or_eq_true] at h
        rcases h with h | h
        · exact absurd (of_decide_eq_true h) hk
        · exact h

lemma append_new_lookup (k : String) (r : DividendRecord) :
    ∀ tbl : List (String × DividendRecord),
      tbl.any (fun kv => kv.1 = k) = false →
      table_lookup (tbl ++ [(k, r)]) k = some r := by
  intro tbl
  induction tbl with
  | nil =>
      intro _
      rw [List.nil_append, table_lookup_cons]
      simp
  | cons kv rest ih =>
      intro h
      simp only [List.any_cons, Bool.or_eq_false_iff] at h
      obtain ⟨h1, h2⟩ := h
      have hk : ¬ kv.1 = k := by simpa using h1
      rw [List.cons_append, table_lookup_cons, if_neg hk]
      exact ih h2

lemma table_lookup_set_self (k : String) (r : DividendRecord)
    (tbl : List (String × DividendRecord)) :
    table_lookup (table_set tbl k r) k = some r := by
  unfold table_set
  by_cases h : tbl.any (fun kv => kv.1 = k) = true
  · rw [if_pos h]
    exact overwrite_lookup k r tbl h
  · have hf : tbl.any (fun kv => kv.1 = k) = false := by
      cases hx : tbl.any (fun kv => kv.1 = k)
      · rfl
      · exact absurd hx h
    rw [if_neg h]
    exact append_new_lookup k r tbl hf

lemma table_lookup_set_ne (k k' : String) (r : DividendRecord) (hne : k' ≠ k) :
    ∀ tbl : List (String × DividendRecord),
      table_lookup (table_set tbl k r) k' = table_lookup tbl k' := by
  intro tbl
  unfold table_set
  by_cases h : tbl.any (fun kv => kv.1 = k) = true
  · rw [if_pos h]
    clear h
    induction tbl with
    | nil => rfl
    | cons kv rest ih =>
        rw [List.map_cons, table_lookup_cons, table_lookup_cons]
        by_cases hk : kv.1 = k
        · rw [if_pos hk]
          have h2 : ¬ kv.1 = k' := by rw [hk]; exact Ne.symm hne
          rw [if_neg (show ¬ ((k, r).1 = k') from Ne.symm hne), if_neg h2]
          exact ih
        · rw [if_neg hk]
          by_cases hk' : kv.1 = k'
          · rw [if_pos hk', if_pos hk']
          · rw [if_neg hk', if_neg hk']
            exact ih
  · rw [if_neg h]
    clear h
    induction tbl with
    | nil =>
        rw [List.nil_append, table_lookup_cons,
          if_neg (show ¬ ((k, r).1 = k') from Ne.symm hne)]
    | cons kv rest ih =>
        rw [List.cons_append, table_lookup_cons, table_lookup_cons]
        by_cases hk' : kv.1 = k'
        · rw [if_pos hk', if_pos hk']
        · rw [if_neg hk', if_neg hk']
          exact ih

lemma table_lookup_of_mem_nodup :
    ∀ (tbl : List (String × DividendRecord)) (kv : String × DividendRecord),
      (tbl.map Prod.fst).Nodup → kv ∈ tbl →
      table_lookup tbl kv.1 = some kv.2 := by
  intro tbl
  induction tbl with
  | nil => intro kv _ hmem; cases hmem
  | cons x rest ih =>
      intro kv hnd hmem
      rw [table_lookup_cons]
      rcases List.mem_cons.mp hmem with rfl | hmem'
      · rw [if_pos rfl]
      · have hx : ¬ x.1 = kv.1 := by
          intro hc
          have h1 : kv.1 ∈ rest.map Prod.fst := List.mem_map_of_mem _ hmem'
          exact (List.nodup_cons.mp (by simpa using hnd)).1 (hc ▸ h1)
        rw [if_neg hx]
        exact ih kv (List.nodup_cons.mp (by simpa using hnd)).2 hmem'

lemma table_set_keys_nodup (k : String) (r : DividendRecord) :
    ∀ tbl : List (String × DividendRecord),
      (tbl.map Prod.fst).Nodup → ((table_set tbl k r).map Prod.fst).Nodup := by
  intro tbl hnd
  unfold table_set
  by_cases h : tbl.any (fun kv => kv.1 = k) = true
  · rw [if_pos h]
    have hkeys : (tbl.map (fun kv => if kv.1 = k then (k, r) else kv)).map
        Prod.fst = tbl.map Prod.fst := by
      rw [List.map_map]
      apply List.map_congr_left
      intro kv _
      by_cases hk : kv.1 = k
      · simp [hk]
      · simp [hk]
    rw [hkeys]
    exact hnd
  · rw [if_neg h, List.map_append, List.nodup_append]
    refine ⟨hnd, by simp, ?_⟩
    intro a ha hb
    simp at hb
    subst hb
    obtain ⟨kv, hkv, hk⟩ := List.mem_map.mp ha
    apply h
    rw [List.any_eq_true]
    exact ⟨kv, hkv, by simp [hk]⟩

/-! ## Dividend book-closure characterization -/

/-- One iteration of the book-closure loop: look up today's dividend for
the position's symbol and, when present, insert/overwrite its
pending-dividend record. -/
def book_closure_step (env : Env) (d : ℕ)
    (tbl : List (String × DividendRecord)) (p : Position) :
    List (String × DividendRecord) :=
  match env.get_dividend_by_book_date p.order_book_id d with
  | none => tbl
  | some dv => table_set tbl p.order_book_id
      { quantity := p.quantity
        dividend_per_share := dv.dividend_cash_before_tax / dv.round_lot
        payable_date := dv.payable_date }

lemma handle_dividend_book_closure_eq (env : Env) (st : StockAccount)
    (d : ℕ) :
    handle_dividend_book_closure env st d =
      { st with
        dividend_receivable :=
          st.positions.foldl (book_closure_step env d)
            st.dividend_receivable } := rfl

lemma book_closure_fold_lookup_absent (env : Env) (d : ℕ) (k : String) :
    ∀ (l : List Position) (tbl : List (String × DividendRecord)),
      (∀ q ∈ l, q.order_book_id ≠ k) →
      table_lookup (l.foldl (book_closure_step env d) tbl) k =
        table_lookup tbl k := by
  intro l
  induction l with
  | nil => intro tbl _; rfl
  | cons x rest ih =>
      intro tbl h
      rw [List.foldl_cons, ih _ (fun q hq => h q (List.mem_cons_of_mem x hq))]
      unfold book_closure_step
      cases hdv : env.get_dividend_by_book_date x.order_book_id d with
      | none => rfl
      | some dv =>
          exact table_lookup_set_ne x.order_book_id k _
            (Ne.symm (h x (List.mem_cons_self x rest))) tbl

lemma book_closure_fold_lookup (env : Env) (d : ℕ) (dv : DividendInfo) :
    ∀ (l : List Position) (tbl : List (String × DividendRecord))
      (q : Position),
      q ∈ l → (l.map Position.order_book_id).Nodup →
      env.get_dividend_by_book_date q.order_book_id d = some dv →
      table_lookup (l.foldl (book_closure_step env d) tbl) q.order_book_id =
        some { quantity := q.quantity
               dividend_per_share :=
                 dv.dividend_cash_before_tax / dv.round_lot
               payable_date := dv.payable_date } := by
  intro l
  induction l with
  | nil => intro tbl q hq _ _; cases hq
  | cons x rest ih =>
      intro tbl q hq hnd hdv
      rw [List.map_cons] at hnd
      rw [List.foldl_cons]
      rcases List.mem_cons.mp hq with rfl | hq'
      · have hrest : ∀ z ∈ rest, z.order_book_id ≠ q.order_book_id := by
          intro z hz hc
          exact (List.nodup_cons.mp hnd).1 (hc ▸ List.mem_map_of_mem _ hz)
        rw [book_closure_fold_lookup_absent env d q.order_book_id rest _ hrest]
        unfold book_closure_step
        rw [hdv]
        exact table_lookup_set_self _ _ _
      · exact ih (book_closure_step env d tbl x) q hq'
          (List.nodup_cons.mp hnd).2 hdv

lemma book_closure_fold_keys_nodup (env : Env) (d : ℕ) :
    ∀ (l : List Position) (tbl : List (String × DividendRecord)),
      (tbl.map Prod.fst).Nodup →
      ((l.foldl (book_closure_step env d) tbl).map Prod.fst).Nodup := by
  intro l
  induction l with
  | nil => intro tbl h; exact h
  | cons x rest ih =>
      intro tbl h
      rw [List.foldl_cons]
      apply ih
      unfold book_closure_step
      cases hdv : env.get_dividend_by_book_date x.order_book_id d with
      | none => exact h
      | some dv => exact table_set_keys_nodup x.order_book_id _ tbl h

/-- A kept position carries the original symbol. -/
lemma settle_keep_key {q p : Position} (h : settle_keep q = some p) :
    p.order_book_id = q.order_book_id := by
  unfold settle_keep at h
  by_cases h1 : q.is_de_listed = true ∧ q.quantity ≠ 0
  · rw [if_pos h1] at h; cases h
  · rw [if_neg h1] at h
    by_cases h2 : q.quantity = 0
    · rw [if_pos h2] at h; cases h
    · rw [if_neg h2] at h; cases h; rfl

/-- The surviving positions' symbols form a sublist of the original
symbols. -/
lemma settle_keys_sublist :
    ∀ l : List Position,
      ((l.filterMap settle_keep).map Position.order_book_id).Sublist
        (l.map Position.order_book_id) := by
  intro l
  induction l with
  | nil => simp
  | cons p rest ih =>
      rw [List.filterMap_cons]
      cases h : settle_keep p with
      | none =>
          rw [List.map_cons]
          exact ih.cons _
      | some q =>
          rw [List.map_cons, List.map_cons, settle_keep_key h]
          exact ih.cons₂ _

/-- When the table has distinct keys, the looked-up record for `obid` is
payable today, and no other record is, then the payable filter selects
exactly that entry. -/
lemma filter_payable_single (P : ℕ) (obid : String) (r : DividendRecord) :
    ∀ tbl : List (String × DividendRecord),
      (tbl.map Prod.fst).Nodup →
      table_lookup tbl obid = some r →
      r.payable_date = P →
      (∀ kv ∈ tbl, kv.1 ≠ obid → kv.2.payable_date ≠ P) →
      tbl.filter (fun kv => kv.2.payable_date = P) = [(obid, r)] := by
  intro tbl
  induction tbl with
  | nil =>
      intro _ hlk _ _
      unfold table_lookup at hlk
      simp at hlk
  | cons kv rest ih =>
      intro hnd hlk hrP hoth
      rw [List.map_cons] at hnd
      rw [table_lookup_cons] at hlk
      by_cases hk : kv.1 = obid
      · rw [if_pos hk] at hlk
        have hkv2 : kv.2 = r := by
          injection hlk
        rw [List.filter_cons]
        have hpass : (decide (kv.2.payable_date = P)) = true := by
          simp [hkv2, hrP]
        rw [if_pos hpass]
        have hrestnil :
            rest.filter (fun kv => kv.2.payable_date = P) = [] := by
          rw [List.filter_eq_nil_iff]
          intro a ha
          have hane : a.1 ≠ obid := by
            intro hc
            apply (List.nodup_cons.mp hnd).1
            rw [hk, ← hc]
            exact List.mem_map_of_mem _ ha
          simp [hoth a (List.mem_cons_of_mem kv ha) hane]
        rw [hrestnil]
        obtain ⟨a, b⟩ := kv
        simp only at hk hkv2
        rw [hk, hkv2]
      · rw [if_neg hk] at hlk
        rw [List.filter_cons]
        have hfail : ¬ ((decide (kv.2.payable_date = P)) = true) := by
          simp
          exact hoth kv (List.mem_cons_self _ _) hk
        rw [if_neg hfail]
        exact ih (List.nodup_cons.mp hnd).2 hlk hrP
          (fun a ha hane => hoth a (List.mem_cons_of_mem kv ha) hane)

/-- Before-trading's cash effect is the dividend-payable credit (split
handling never touches cash). -/
lemma before_trading_total_cash (env : Env) (st : StockAccount) :
    (before_trading env st).total_cash =
      (handle_dividend_payable st env.trading_date).total_cash := by
  unfold before_trading
  by_cases h : env.handle_split = true
  · rw [if_pos h]; rfl
  · rw [if_neg h]

/-- Before-trading's table effect is the dividend-payable removal (split
handling never touches the table). -/
lemma before_trading_dividend_receivable (env : Env) (st : StockAccount) :
    (before_trading env st).dividend_receivable =
      (handle_dividend_payable st env.trading_date).dividend_receivable := by
  unfold before_trading
  by_cases h : env.handle_split = true
  · rw [if_pos h]; rfl
  · rw [if_neg h]

/-- C5: dividend round-trip. For a live position with quantity Q at
settlement of ex-date D, book closure at D's settlement inserts a
pending record for its symbol with quantity Q, per-share amount
`dividend_cash_before_tax / round_lot`, and the payable date P; at the
before-trading event whose date equals P, `total_cash` grows by exactly
`Q × (dividend_cash_before_tax / round_lot)`, the record is removed, and
records with other payable dates are left untouched. -/
theorem dividend_round_trip
    (env env2 : Env) (st : StockAccount) (D P : ℕ) (obid : String)
    (p : Position) (dv : DividendInfo) (Q : ℚ)
    (hmem : p ∈ st.positions) (hkey : p.order_book_id = obid)
    (hndpos : (st.positions.map Position.order_book_id).Nodup)
    (hndtbl : (st.dividend_receivable.map Prod.fst).Nodup)
    (hQ : p.quantity = Q) (hQne : Q ≠ 0) (hlive : p.is_de_listed = false)
    (hdv : env.get_dividend_by_book_date obid D = some dv)
    (hP : dv.payable_date = P)
    (henv2 : env2.trading_date = P)
    (hothers : ∀ kv ∈ (on_settlement env st D).dividend_receivable,
      kv.1 ≠ obid → kv.2.payable_date ≠ P) :
    table_lookup (on_settlement env st D).dividend_receivable obid =
      some { quantity := Q
             dividend_per_share := dv.dividend_cash_before_tax / dv.round_lot
             payable_date := P } ∧
    (before_trading env2 (on_settlement env st D)).total_cash =
      (on_settlement env st D).total_cash +
        Q * (dv.dividend_cash_before_tax / dv.round_lot) ∧
    (∀ kv ∈ (before_trading env2
        (on_settlement env st D)).dividend_receivable, kv.1 ≠ obid) ∧
    (∀ kv ∈ (on_settlement env st D).dividend_receivable,
      kv.2.payable_date ≠ P →
      kv ∈ (before_trading env2
        (on_settlement env st D)).dividend_receivable) := by
  obtain ⟨hpos1, _, _, htbl1⟩ :=
    settle_fold_spec env st.positions [] st (by simp) (by simpa using hndpos)
  have hst1tbl : (on_settlement env st D).dividend_receivable =
      (st.positions.filterMap settle_keep).foldl (book_closure_step env D)
        st.dividend_receivable := by
    show ((st.positions.foldl (settle_position_step env) st).positions).foldl
        (book_closure_step env D)
        ((st.positions.foldl (settle_position_step env) st).dividend_receivable)
      = _
    rw [htbl1, hpos1]
    simp
  have hqmem : p.apply_settlement ∈ st.positions.filterMap settle_keep :=
    List.mem_filterMap.mpr ⟨p, hmem, settle_keep_of_live p
      (fun hc => absurd hc.1 (by simp [hlive]))
      (fun hc => hQne (hQ.symm.trans hc))⟩
  have hndkeys :
      ((st.positions.filterMap settle_keep).map Position.order_book_id).Nodup :=
    List.Nodup.sublist (settle_keys_sublist st.positions) hndpos
  have hkeyq : (p.apply_settlement).order_book_id = obid := hkey
  have hpart1 : table_lookup (on_settlement env st D).dividend_receivable
      obid = some { quantity := Q
                    dividend_per_share :=
                      dv.dividend_cash_before_tax / dv.round_lot
                    payable_date := P } := by
    rw [hst1tbl]
    have hres := book_closure_fold_lookup env D dv
      (st.positions.filterMap settle_keep) st.dividend_receivable
      p.apply_settlement hqmem hndkeys
      (by rw [hkeyq]; exact hdv)
    rw [hkeyq] at hres
    rw [show (p.apply_settlement).quantity = Q from hQ] at hres
    rw [hP] at hres
    exact hres
  have hndtbl1 :
      ((on_settlement env st D).dividend_receivable.map Prod.fst).Nodup := by
    rw [hst1tbl]
    exact book_closure_fold_keys_nodup env D _ _ hndtbl
  have hfilter : (on_settlement env st D).dividend_receivable.filter
      (fun kv => kv.2.payable_date = P) =
        [(obid, { quantity := Q
                  dividend_per_share :=
                    dv.dividend_cash_before_tax / dv.round_lot
                  payable_date := P })] :=
    filter_payable_single P obid _ _ hndtbl1 hpart1 rfl hothers
  have htbl2 : (before_trading env2
      (on_settlement env st D)).dividend_receivable =
        (on_settlement env st D).dividend_receivable.filter
          (fun kv => kv.2.payable_date ≠ P) := by
    rw [before_trading_dividend_receivable, henv2]
    rfl
  refine ⟨hpart1, ?_, ?_, ?_⟩
  · rw [before_trading_total_cash, henv2]
    have hcash : (handle_dividend_payable (on_settlement env st D) P).total_cash
        = (on_settlement env st D).total_cash +
            (((on_settlement env st D).dividend_receivable.filter
              (fun kv => kv.2.payable_date = P)).map
              (fun kv => kv.2.quantity * kv.2.dividend_per_share)).sum := rfl
    rw [hcash, hfilter]
    simp
  · intro kv hkv
    rw [htbl2] at hkv
    obtain ⟨hmem', hne'⟩ := List.mem_filter.mp hkv
    intro hc
    have hlk := table_lookup_of_mem_nodup _ kv hndtbl1 hmem'
    rw [hc, hpart1] at hlk
    have hkv2 : kv.2 = { quantity := Q
                         dividend_per_share :=
                           dv.dividend_cash_before_tax / dv.round_lot
                         payable_date := P } := by
      injection hlk.symm
    have : kv.2.payable_date = P := by rw [hkv2]
    simp [this] at hne'
  · intro kv hkv hne
    rw [htbl2]
    exact List.mem_filter.mpr ⟨hkv, by simpa using hne⟩

/-- A dividend of 5 per round lot of 10, payable on 2017-07-10. -/
def div_info : DividendInfo :=
  { dividend_cash_before_tax := 5
    round_lot := 10
    payable_date := 20170710 }

/-- An environment whose reference data has that dividend for
`000001.XSHE` with ex-date 2017-07-04. -/
def env_div : Env :=
  { trading_date := 20170704
    handle_split := false
    cash_return_by_stock_delisted := false
    get_dividend_by_book_date := fun s d =>
      if s = "000001.XSHE" ∧ d = 20170704 then some div_info else none
    get_split_by_ex_date := fun _ _ => none }

/-- The environment at the payable date's before-trading event. -/
def env_pay : Env :=
  { env0 with trading_date := 20170710 }

/-- An account holding 100 shares of `000001.XSHE` and nothing pending. -/
def div_state : StockAccount :=
  { total_cash := 1000
    frozen_cash := 0
    positions := [pos_live]
    backward_trade_set := (∅ : Finset ℕ)
    dividend_receivable := [] }

/-- C5 witness: the dividend round-trip at the concrete account, with
credit 100 × (5 / 10) = 50. -/
theorem dividend_round_trip_witness :
    table_lookup (on_settlement env_div div_state 20170704).dividend_receivable
      sym0 = some { quantity := 100
                    dividend_per_share :=
                      div_info.dividend_cash_before_tax / div_info.round_lot
                    payable_date := 20170710 } ∧
    (before_trading env_pay (on_settlement env_div div_state
        20170704)).total_cash =
      (on_settlement env_div div_state 20170704).total_cash +
        100 * (div_info.dividend_cash_before_tax / div_info.round_lot) ∧
    (∀ kv ∈ (before_trading env_pay (on_settlement env_div div_state
        20170704)).dividend_receivable, kv.1 ≠ sym0) ∧
    (∀ kv ∈ (on_settlement env_div div_state 20170704).dividend_receivable,
      kv.2.payable_date ≠ 20170710 →
      kv ∈ (before_trading env_pay (on_settlement env_div div_state
        20170704)).dividend_receivable) := by
  have htable : (on_settlement env_div div_state 20170704).dividend_receivable
      = [(sym0, { quantity := 100
                  dividend_per_share := 1/2
                  payable_date := 20170710 })] := by
    norm_num [on_settlement, handle_dividend_book_closure,
      settle_position_step, Position.apply_settlement, Position.is_de_listed,
      pop_key, update_at, table_set, env_div, div_state, pos_live, div_info,
      sym0]
  refine dividend_round_trip env_div env_pay div_state 20170704 20170710
    sym0 pos_live div_info 100 (by simp [div_state]) rfl
    (by simp [div_state]) (by simp [div_state]) rfl (by norm_num) rfl
    (by simp [env_div, sym0]) rfl rfl ?_
  intro kv hkv hne
  rw [htable] at hkv
  have hkv' := List.mem_singleton.mp hkv
  rw [hkv'] at hne
  exact absurd rfl hne
